import Mathlib

/-!
Simplejack: the handoff between the JACK process callback and the fill worker

A shallow embedding of `src/binding.cc` (class `Simplejack`) and the properties of its
double-buffer handoff: `process_callback`, `work_callback`, `buffer_size_changed`,
`sample_rate_changed`, the `callback` setter and `activate`.

Conventions of the embedding
* A C `int` is an `Int`; every arithmetic result stored in one goes through `wrapInt`
  (two's complement, 32 bits). A `jack_nframes_t` argument is a `Nat`.
* A block of samples is a `List (Option σ)`: `none` is a cell whose content is indeterminate
  (fresh from `realloc`, or beyond the end of the block).
* `period_mutex` is a `Bool`. Every operation runs from its `uv_mutex_lock` to its
  `uv_mutex_unlock` in one step; an operation that finds the mutex locked never returns,
  which is the result `none`.
* The time handed to the user callback, `(offset + i) / (double) sampleRate`, is kept as the
  pair of its two integer operands (`JsTime`).
* `JackError::check` is declared `throw ()` and throws on a non-zero status: the exception
  cannot leave it, the process is terminated (`Outcome.terminated`).
* A sample whose value is a natural number is kept as that number; `toFloat32` is the
  narrowing of such a number to the 32-bit float `jack_default_audio_sample_t`.
-/

namespace SimplejackBinding

/-- The value a C `int` holds after the mathematical result `x` is stored in it. -/
def wrapInt (x : Int) : Int := (x + 2147483648) % 4294967296 - 2147483648

/-- The double `num / (double) den` passed as first argument of the user callback,
kept as its operands. -/
structure JsTime where
  num : Int
  den : Int
deriving DecidableEq, Repr

/-- Class `JackError`: a JACK status code and the action during which it was met. -/
structure JackError where
  status : Int
  context : String
deriving DecidableEq, Repr

/-- The user callback `(time, port, frame)`: it returns the sample that is stored in the
buffer, or throws. -/
abbrev UserCallback (σ : Type) := JsTime → Nat → Nat → Except String σ

/-- The argument of the `callback` setter, by the two tests the setter makes on it:
`IsObject()` and `IsCallable()`. -/
inductive JsValue (σ : Type) where
  | primitive : JsValue σ
  | object : JsValue σ
  | callable : UserCallback σ → JsValue σ

/-- Class `Simplejack`, with the collaborators its methods act on. -/
structure Simplejack (σ : Type) where
  /-- Field `callback`; `none` is the empty handle. -/
  callback : Option (UserCallback σ)
  /-- Field `const int ports`, between 1 and 30 (checked by the JS constructor). -/
  ports : Nat
  sampleRate : Int
  bufferSize : Int
  holdState : Bool
  periodReady : Bool
  ticks : Int
  misses : Int
  /-- Field `buffers`: the block each `buffers[port]` points to. -/
  buffers : Nat → List (Option σ)
  /-- Field `period_mutex`: `true` when locked. -/
  period_mutex : Bool
  /-- Work requests handed to `uv_queue_work` whose `work_callback` has not run yet. -/
  queued : Nat
  /-- The block `jack_port_get_buffer` gives for each port. -/
  port_buffers : Nat → List (Option σ)
  /-- Exceptions handed to the host, oldest first. -/
  thrown : List String
  /-- Record of the user callback invocations `(time, port, frame)`, oldest first. -/
  calls : List (JsTime × Nat × Nat)
  /-- Number of `work_callback` runs that got past the lock. -/
  fills : Nat

/-- How a call of `Activate` or `Deactivate` ends. -/
inductive Outcome (σ : Type) where
  /-- The call returns to its caller and leaves the instance as given. -/
  | returned : Simplejack σ → Outcome σ
  /-- The call waits for `period_mutex` and never returns. -/
  | blocked : Outcome σ
  /-- The status handed to `JackError::check` was not zero: the function, declared
  `throw ()`, throws the `JackError`, and the process is terminated. The instance is given
  as it was at that moment. -/
  | terminated : Simplejack σ → JackError → Outcome σ

variable {σ : Type}

/-- The first `n` cells found at the start of `block`; cells past its end are indeterminate.
This is what `memcpy (dest, block, n * sizeof (sample))` leaves in `dest`, and the block
`realloc (block, n * sizeof (sample))` returns. -/
def cells (n : Nat) (block : List (Option σ)) : List (Option σ) :=
  (List.range n).map fun i => block.getD i none

/-- The constructor: `ports`, `holdState`, `ticks`, `misses` are initialised, `buffers` is
zeroed; `sampleRate`, `bufferSize` and `periodReady` are left as found in memory. -/
def construct (ports : Nat) (sampleRate0 bufferSize0 : Int) (periodReady0 : Bool) :
    Simplejack σ where
  callback := none
  ports := ports
  sampleRate := sampleRate0
  bufferSize := bufferSize0
  holdState := false
  periodReady := periodReady0
  ticks := 0
  misses := 0
  buffers := fun _ => []
  period_mutex := false
  queued := 0
  port_buffers := fun _ => []
  thrown := []
  calls := []
  fills := 0

namespace Simplejack

/-- Setter `Callback`. -/
def Callback (arg : JsValue σ) (inst : Simplejack σ) :
    Option (Simplejack σ × Except String Unit) :=
  match arg with
  | .primitive => some (inst, .error "Callback must be callable")
  | .object => some (inst, .error "Callback must be callable")
  | .callable obj =>
    if inst.period_mutex then none
    else some ({ inst with callback := some obj, ticks := 0 }, .ok ())

/-- Getter `GetMisses`. -/
def GetMisses (inst : Simplejack σ) : Option Int :=
  if inst.period_mutex then none else some inst.misses

/-- Getter `GetTicks`. -/
def GetTicks (inst : Simplejack σ) : Option Int :=
  if inst.period_mutex then none else some inst.ticks

/-- Method `holdLoop`. -/
def holdLoop (inst : Simplejack σ) : Simplejack σ :=
  if inst.holdState = true then inst else { inst with holdState := true }

/-- Method `releaseLoop`. -/
def releaseLoop (inst : Simplejack σ) : Simplejack σ :=
  if inst.holdState = false then inst else { inst with holdState := false }

/-- JACK main callback `process_callback`. -/
def process_callback (nframes : Nat) (inst : Simplejack σ) : Option (Simplejack σ) :=
  if inst.period_mutex then none
  else
    let inst1 :=
      if inst.periodReady then
        { inst with
          port_buffers :=
            (List.range inst.ports).foldl
              (fun dest port => Function.update dest port (cells nframes (inst.buffers port)))
              inst.port_buffers
          queued := inst.queued + 1 }
      else { inst with misses := wrapInt (inst.misses + 1) }
    some { inst1 with ticks := wrapInt (inst1.ticks + 1), periodReady := false }

/-- JACK callback `sample_rate_changed`. -/
def sample_rate_changed (nframes : Nat) (inst : Simplejack σ) : Option (Simplejack σ) :=
  if inst.period_mutex then none
  else some { inst with sampleRate := wrapInt nframes }

/-- JACK callback `buffer_size_changed`. -/
def buffer_size_changed (nframes : Nat) (inst : Simplejack σ) : Option (Simplejack σ) :=
  if inst.period_mutex then none
  else
    some { inst with
      bufferSize := wrapInt nframes
      periodReady := false
      buffers :=
        (List.range inst.ports).foldl
          (fun bufs port => Function.update bufs port (cells nframes (bufs port)))
          inst.buffers }

/-- A counting loop whose body may throw: the bodies run in order and the loop is left at the
first one that throws. -/
def loopUntilThrow {α : Type} (body : Nat → α → α × Option String) :
    List Nat → α → α × Option String
  | [], a => (a, none)
  | i :: rest, a =>
    match body i a with
    | (a1, none) => loopUntilThrow body rest a1
    | (a1, some e) => (a1, some e)

/-- The body of the inner loop of `work_callback`, for frame `i` of `port`, on the pair of the
buffers and the record of calls. -/
def fill_frame (cb : UserCallback σ) (offset sampleRate : Int) (port i : Nat)
    (st : (Nat → List (Option σ)) × List (JsTime × Nat × Nat)) :
    ((Nat → List (Option σ)) × List (JsTime × Nat × Nat)) × Option String :=
  let time : JsTime := ⟨wrapInt (offset + i), sampleRate⟩
  let log := st.2 ++ [(time, port, i)]
  match cb time port i with
  | .error e => ((st.1, log), some e)
  | .ok result => ((Function.update st.1 port ((st.1 port).set i (some result)), log), none)

/-- The two nested loops of `work_callback`. -/
def fill_loops (cb : UserCallback σ) (offset sampleRate : Int) (ports : Nat) (bufferSize : Int)
    (st : (Nat → List (Option σ)) × List (JsTime × Nat × Nat)) :
    ((Nat → List (Option σ)) × List (JsTime × Nat × Nat)) × Option String :=
  loopUntilThrow
    (fun port st1 =>
      loopUntilThrow (fill_frame cb offset sampleRate port) (List.range bufferSize.toNat) st1)
    (List.range ports) st

/-- The frame offset `work_callback` computes: `int offset = bufferSize * ticks`. -/
def work_offset (inst : Simplejack σ) : Int := wrapInt (inst.bufferSize * inst.ticks)

/-- Work callback `work_callback`. When the user callback throws, `V8_THROW` leaves the
function at once: `periodReady` is not set and `period_mutex` is not unlocked. -/
def work_callback (inst : Simplejack σ) : Option (Simplejack σ) :=
  if inst.period_mutex then none
  else
    match inst.callback with
    | none => some { inst with fills := inst.fills + 1 }
    | some cb =>
      match fill_loops cb (work_offset inst) inst.sampleRate inst.ports inst.bufferSize
          (inst.buffers, inst.calls) with
      | (st, none) =>
        some { inst with
          buffers := st.1, calls := st.2, fills := inst.fills + 1, periodReady := true }
      | (st, some e) =>
        some { inst with
          buffers := st.1, calls := st.2, fills := inst.fills + 1
          thrown := inst.thrown ++ [e], period_mutex := true }

/-- Method `Activate`; `jack_sample_rate`, `jack_buffer_size` and `jack_status` are what
`jack_get_sample_rate`, `jack_get_buffer_size` and `jack_activate` return. `JackError::check`
on a non-zero status terminates the process. -/
def Activate (jack_sample_rate jack_buffer_size : Nat) (jack_status : Int)
    (inst : Simplejack σ) : Outcome σ :=
  let inst1 := { inst with misses := 0, ticks := 0 }
  match sample_rate_changed jack_sample_rate inst1 with
  | none => .blocked
  | some inst2 =>
    match buffer_size_changed jack_buffer_size inst2 with
    | none => .blocked
    | some inst3 =>
      if jack_status ≠ 0 then .terminated inst3 ⟨jack_status, "activating the client"⟩
      else .returned (holdLoop { inst3 with queued := inst3.queued + 1 })

/-- Method `Deactivate`; `jack_status` is what `jack_deactivate` returns. `JackError::check`
on a non-zero status terminates the process. -/
def Deactivate (jack_status : Int) (inst : Simplejack σ) : Outcome σ :=
  if jack_status ≠ 0 then .terminated inst ⟨jack_status, "deactivating the client"⟩
  else .returned (releaseLoop inst)

end Simplejack

/-- What happens to an instance: calls from the host, calls from the JACK server, and the
event loop running a queued work request. -/
inductive Event (σ : Type) where
  | activate (jack_sample_rate jack_buffer_size : Nat) (jack_status : Int) : Event σ
  | setCallback (arg : JsValue σ) : Event σ
  | tick (nframes : Nat) : Event σ
  | fill : Event σ
  | bufferSize (nframes : Nat) : Event σ
  | sampleRate (nframes : Nat) : Event σ

/-- One event. `none`: the event does not complete (the mutex is locked for good, or the
process is terminated), or for `fill`: no work request is queued. -/
def step (e : Event σ) (inst : Simplejack σ) : Option (Simplejack σ) :=
  match e with
  | .activate sr bs status =>
    match inst.Activate sr bs status with
    | .returned inst1 => some inst1
    | .blocked => none
    | .terminated _ _ => none
  | .setCallback arg => (inst.Callback arg).map Prod.fst
  | .tick nframes => inst.process_callback nframes
  | .fill =>
    if inst.queued = 0 then none
    else Simplejack.work_callback { inst with queued := inst.queued - 1 }
  | .bufferSize nframes => inst.buffer_size_changed nframes
  | .sampleRate nframes => inst.sample_rate_changed nframes

/-- A sequence of events, first to last. -/
def run : List (Event σ) → Simplejack σ → Option (Simplejack σ)
  | [], inst => some inst
  | e :: rest, inst =>
    match step e inst with
    | none => none
    | some inst1 => run rest inst1

/-! ## Instances and callbacks used as examples -/

/-- The callback `f (t, port, frame) = port * 1000 + frame`, after `enc` turns the number
into a sample. -/
def portFrame (enc : Nat → σ) : UserCallback σ := fun _ port i => .ok (enc (port * 1000 + i))

/-- A callback that throws on frame 2 of port 0 and returns 0 elsewhere. -/
def throwsAtFrame2 : UserCallback Nat := fun _ port i =>
  if port = 0 ∧ i = 2 then .error "boom" else .ok 0

/-- A freshly constructed instance with `ports` ports whose callback is `portFrame id`. -/
def fresh (ports : Nat) : Simplejack Nat :=
  { (construct ports 0 0 false : Simplejack Nat) with callback := some (portFrame id) }

/-- One port, 4-frame buffers holding 1, 2, 3, 4, with the counters given. -/
def sample1 (ready : Bool) (ticks misses : Int) : Simplejack Nat :=
  { (construct 1 48000 4 ready : Simplejack Nat) with
    callback := some (portFrame id)
    ticks := ticks
    misses := misses
    buffers := fun _ => [some 1, some 2, some 3, some 4] }

/-- One port, 4-frame buffers, and a callback that throws on frame 2 of port 0. -/
def throwing : Simplejack Nat :=
  { sample1 false 1 1 with callback := some throwsAtFrame2 }

/-- The user callback returns a sample on every argument: it never throws. -/
def NeverThrows (cb : UserCallback σ) : Prop := ∀ t port i, ∃ v, cb t port i = .ok v

/-- The events of `n` periods in which the worker keeps up: a tick of `nframes` frames, then
the fill it scheduled. -/
def periods (nframes : Nat) : Nat → List (Event σ)
  | 0 => []
  | n + 1 => .tick nframes :: .fill :: periods nframes n

/-- A successful `activate`, the first fill, then `n` periods each followed by its fill. -/
def handoff_trace (jack_sample_rate jack_buffer_size n : Nat) : List (Event σ) :=
  .activate jack_sample_rate jack_buffer_size 0 :: .fill :: periods jack_buffer_size n

/-- Events that keep the fill chain going: period ticks, fill-worker runs, sample-rate
changes, and calls of the `callback` setter whose argument, when callable, never throws. -/
def KeepsChain : Event σ → Prop
  | .tick _ => True
  | .fill => True
  | .sampleRate _ => True
  | .setCallback (.callable obj) => NeverThrows obj
  | .setCallback _ => True
  | .bufferSize _ => False
  | .activate _ _ _ => False

/-- The instance of the two-port scenario: fresh from the constructor, whatever the fields
it leaves uninitialised hold, with a callback `g` that returns a sample on every argument. -/
def scenario (g : JsTime → Nat → Nat → σ) (sampleRate0 bufferSize0 : Int)
    (periodReady0 : Bool) : Simplejack σ :=
  { (construct 2 sampleRate0 bufferSize0 periodReady0 : Simplejack σ) with
    callback := some fun t port i => .ok (g t port i) }

/-- The fill chain is alive: the mutex is free, a callback that never throws is set, and a
fill is queued whenever the buffer is not ready. -/
def ChainAlive (inst : Simplejack σ) : Prop :=
  inst.period_mutex = false ∧ (∃ cb, inst.callback = some cb ∧ NeverThrows cb) ∧
    (inst.periodReady = false → 1 ≤ inst.queued)

end SimplejackBinding

namespace SimplejackBinding

variable {σ : Type}

/-! ## Machine integers -/

theorem wrapInt_of_int {x : Int} (h₁ : -2147483648 ≤ x) (h₂ : x < 2147483648) :
    wrapInt x = x := by
  unfold wrapInt
  omega

theorem wrapInt_add_wrapInt (a b : Int) : wrapInt (wrapInt a + b) = wrapInt (a + b) := by
  unfold wrapInt
  omega

/-! ## Blocks of samples and the loops over the ports -/

theorem cells_length (n : Nat) (block : List (Option σ)) : (cells n block).length = n := by
  simp [cells]

theorem cells_getElem? (n : Nat) (block : List (Option σ)) (i : Nat) (hi : i < n)
    (hb : i < block.length) : (cells n block)[i]? = block[i]? := by
  simp [cells, List.getElem?_map, List.getElem?_range hi, List.getD_eq_getElem?_getD,
    List.getElem?_eq_getElem hb]

theorem cells_eq_take (n : Nat) (block : List (Option σ)) (h : n ≤ block.length) :
    cells n block = block.take n := by
  apply List.ext_getElem?
  intro i
  by_cases hi : i < n
  · rw [cells_getElem? n block i hi (by omega), List.getElem?_take_of_lt hi]
  · rw [List.getElem?_eq_none (by rw [cells_length]; omega),
      List.getElem?_eq_none (by rw [List.length_take]; omega)]

/-- A loop `for (port = 0; port < n; port++) b[port] = f (port, b[port])` in closed form. -/
theorem foldl_update_range {β : Type} (f : Nat → β → β) (n : Nat) (b : Nat → β) :
    (List.range n).foldl (fun acc port => Function.update acc port (f port (acc port))) b
      = fun q => if q < n then f q (b q) else b q := by
  induction n with
  | zero => simp
  | succ n ih =>
    rw [List.range_succ, List.foldl_append, ih]
    funext q
    simp only [List.foldl_cons, List.foldl_nil, Function.update_apply]
    by_cases h1 : q = n
    · subst h1; simp
    · by_cases h2 : q < n
      · have : q < n + 1 := by omega
        simp [h1, h2, this]
      · have : ¬ q < n + 1 := by omega
        simp [h1, h2, this]

/-! ## The operations, case by case -/

theorem process_callback_ready (inst : Simplejack σ) (nframes : Nat)
    (hlock : inst.period_mutex = false) (hr : inst.periodReady = true) :
    inst.process_callback nframes = some { inst with
      port_buffers := fun q =>
        if q < inst.ports then cells nframes (inst.buffers q) else inst.port_buffers q
      queued := inst.queued + 1
      ticks := wrapInt (inst.ticks + 1)
      periodReady := false } := by
  have hcopy := foldl_update_range
    (fun port _ => cells nframes (inst.buffers port)) inst.ports inst.port_buffers
  simp only [Simplejack.process_callback, hlock, hr, hcopy]
  rfl

theorem process_callback_miss (inst : Simplejack σ) (nframes : Nat)
    (hlock : inst.period_mutex = false) (hr : inst.periodReady = false) :
    inst.process_callback nframes = some { inst with
      misses := wrapInt (inst.misses + 1)
      ticks := wrapInt (inst.ticks + 1)
      periodReady := false } := by
  simp only [Simplejack.process_callback, hlock, hr]
  rfl

theorem process_callback_locked (inst : Simplejack σ) (nframes : Nat)
    (hlock : inst.period_mutex = true) : inst.process_callback nframes = none := by
  simp [Simplejack.process_callback, hlock]

theorem buffer_size_changed_free (inst : Simplejack σ) (nframes : Nat)
    (hlock : inst.period_mutex = false) :
    inst.buffer_size_changed nframes = some { inst with
      bufferSize := wrapInt nframes
      periodReady := false
      buffers := fun q =>
        if q < inst.ports then cells nframes (inst.buffers q) else inst.buffers q } := by
  have hre := foldl_update_range (fun _ block => cells nframes block) inst.ports inst.buffers
  simp only [Simplejack.buffer_size_changed, hlock, hre]
  rfl

theorem sample_rate_changed_free (inst : Simplejack σ) (nframes : Nat)
    (hlock : inst.period_mutex = false) :
    inst.sample_rate_changed nframes = some { inst with sampleRate := wrapInt nframes } := by
  simp only [Simplejack.sample_rate_changed, hlock]
  rfl

/-- What `Activate` has done to the instance when it reaches `jack_activate`, and how it
ends. -/
theorem Activate_free (inst : Simplejack σ) (sr bs : Nat) (status : Int)
    (hlock : inst.period_mutex = false) :
    inst.Activate sr bs status =
      if status ≠ 0 then
        .terminated { inst with
          misses := 0, ticks := 0, sampleRate := wrapInt sr, bufferSize := wrapInt bs
          periodReady := false
          buffers := fun q =>
            if q < inst.ports then cells bs (inst.buffers q) else inst.buffers q }
          ⟨status, "activating the client"⟩
      else
        .returned (Simplejack.holdLoop { inst with
          misses := 0, ticks := 0, sampleRate := wrapInt sr, bufferSize := wrapInt bs
          periodReady := false
          buffers := fun q =>
            if q < inst.ports then cells bs (inst.buffers q) else inst.buffers q
          queued := inst.queued + 1 }) := by
  have h1 := sample_rate_changed_free { inst with misses := 0, ticks := 0 } sr hlock
  have h2 := buffer_size_changed_free
    { inst with misses := 0, ticks := 0, sampleRate := wrapInt sr } bs hlock
  simp only [Simplejack.Activate, h1, h2]

/-! ## The fill worker -/

theorem loopUntilThrow_ok {α : Type} (body : Nat → α → α × Option String) (l : List Nat)
    (hbody : ∀ i a, (body i a).2 = none) (a : α) : (Simplejack.loopUntilThrow body l a).2 = none := by
  induction l generalizing a with
  | nil => rfl
  | cons i rest ih =>
    unfold Simplejack.loopUntilThrow
    rcases hb : body i a with ⟨a1, _ | e⟩
    · exact ih a1
    · have := hbody i a
      rw [hb] at this
      cases this

theorem loopUntilThrow_throws {α : Type} (body : Nat → α → α × Option String) (l : List Nat)
    (i0 : Nat) (hmem : i0 ∈ l) (hbody : ∀ a, (body i0 a).2 ≠ none) (a : α) :
    (Simplejack.loopUntilThrow body l a).2 ≠ none := by
  induction l generalizing a with
  | nil => cases hmem
  | cons i rest ih =>
    unfold Simplejack.loopUntilThrow
    rcases hb : body i a with ⟨a1, _ | e⟩
    · rcases List.mem_cons.mp hmem with h | h
      · subst h
        have := hbody a
        rw [hb] at this
        exact absurd rfl this
      · exact ih h a1
    · simp

/-- With a callback that never throws the two loops run to their end. -/
theorem fill_loops_ok (cb : UserCallback σ) (hcb : NeverThrows cb) (offset sampleRate : Int)
    (ports : Nat) (bufferSize : Int)
    (st : (Nat → List (Option σ)) × List (JsTime × Nat × Nat)) :
    (Simplejack.fill_loops cb offset sampleRate ports bufferSize st).2 = none := by
  apply loopUntilThrow_ok
  intro port st1
  apply loopUntilThrow_ok
  intro i st2
  obtain ⟨v, hv⟩ := hcb ⟨wrapInt (offset + i), sampleRate⟩ port i
  simp only [Simplejack.fill_frame, hv]

/-- When the callback throws at frame `i0` of port `port0`, the loops are left with an
exception. -/
theorem fill_loops_throws (cb : UserCallback σ) (offset sampleRate : Int) (ports : Nat)
    (bufferSize : Int) (port0 i0 : Nat) (e : String) (hport : port0 < ports)
    (hi : (i0 : Int) < bufferSize)
    (hthrow : cb ⟨wrapInt (offset + i0), sampleRate⟩ port0 i0 = .error e)
    (st : (Nat → List (Option σ)) × List (JsTime × Nat × Nat)) :
    (Simplejack.fill_loops cb offset sampleRate ports bufferSize st).2 ≠ none := by
  apply loopUntilThrow_throws _ _ port0 (List.mem_range.mpr hport)
  intro st1
  apply loopUntilThrow_throws _ _ i0 (List.mem_range.mpr (by omega))
  intro st2
  simp only [Simplejack.fill_frame, hthrow]
  simp

theorem work_callback_of_ok (inst : Simplejack σ) (cb : UserCallback σ)
    (st : (Nat → List (Option σ)) × List (JsTime × Nat × Nat))
    (hlock : inst.period_mutex = false) (hcb : inst.callback = some cb)
    (hloops : Simplejack.fill_loops cb (Simplejack.work_offset inst) inst.sampleRate inst.ports
      inst.bufferSize (inst.buffers, inst.calls) = (st, none)) :
    inst.work_callback = some { inst with
      buffers := st.1, calls := st.2, fills := inst.fills + 1, periodReady := true } := by
  simp only [Simplejack.work_callback, hlock, hcb, hloops]
  rfl

theorem work_callback_of_throw (inst : Simplejack σ) (cb : UserCallback σ)
    (st : (Nat → List (Option σ)) × List (JsTime × Nat × Nat)) (e : String)
    (hlock : inst.period_mutex = false) (hcb : inst.callback = some cb)
    (hloops : Simplejack.fill_loops cb (Simplejack.work_offset inst) inst.sampleRate inst.ports
      inst.bufferSize (inst.buffers, inst.calls) = (st, some e)) :
    inst.work_callback = some { inst with
      buffers := st.1, calls := st.2, fills := inst.fills + 1
      thrown := inst.thrown ++ [e], period_mutex := true } := by
  simp only [Simplejack.work_callback, hlock, hcb, hloops]
  rfl

/-- A fill with a callback that never throws: the buffer is marked ready, the mutex is
released and the counters, the parameters and the queue are as before. -/
theorem work_callback_never_throws (inst : Simplejack σ) (cb : UserCallback σ)
    (hlock : inst.period_mutex = false) (hcb : inst.callback = some cb)
    (hok : NeverThrows cb) :
    ∃ out, inst.work_callback = some out ∧ out.periodReady = true ∧
      out.period_mutex = false ∧ out.callback = some cb ∧ out.ticks = inst.ticks ∧
      out.misses = inst.misses ∧ out.queued = inst.queued ∧
      out.bufferSize = inst.bufferSize ∧ out.sampleRate = inst.sampleRate ∧
      out.ports = inst.ports := by
  have h2 := fill_loops_ok cb hok (Simplejack.work_offset inst) inst.sampleRate inst.ports
    inst.bufferSize (inst.buffers, inst.calls)
  rcases hl : Simplejack.fill_loops cb (Simplejack.work_offset inst) inst.sampleRate inst.ports
    inst.bufferSize (inst.buffers, inst.calls) with ⟨st, e⟩
  rw [hl] at h2
  simp only at h2
  subst h2
  exact ⟨_, work_callback_of_ok inst cb st hlock hcb hl, rfl, hlock, hcb, rfl, rfl, rfl, rfl,
    rfl, rfl⟩

/-! ## What a completed fill leaves in the buffers -/

theorem run_cons_of_step (e : Event σ) (rest : List (Event σ)) (inst mid : Simplejack σ)
    (h : step e inst = some mid) : run (e :: rest) inst = run rest mid := by
  simp only [run, h]

theorem holdLoop_eq (inst : Simplejack σ) :
    Simplejack.holdLoop inst = { inst with holdState := true } := by
  unfold Simplejack.holdLoop
  split
  · rename_i h
    cases inst
    simp only at h
    subst h
    rfl
  · rfl

/-- A successful `Activate` as an event. -/
theorem step_activate (inst : Simplejack σ) (sr bs : Nat)
    (hlock : inst.period_mutex = false) :
    ∃ out, step (.activate sr bs 0) inst = some out ∧ out.ticks = 0 ∧ out.misses = 0 ∧
      out.periodReady = false ∧ out.queued = inst.queued + 1 ∧ out.holdState = true ∧
      out.callback = inst.callback ∧ out.period_mutex = false ∧
      out.bufferSize = wrapInt bs ∧ out.sampleRate = wrapInt sr ∧ out.ports = inst.ports := by
  have h := Activate_free inst sr bs 0 hlock
  rw [if_neg (by simp), holdLoop_eq] at h
  have hstep : step (.activate sr bs 0) inst = some { inst with
      misses := 0, ticks := 0, sampleRate := wrapInt sr, bufferSize := wrapInt bs
      periodReady := false
      buffers := fun q =>
        if q < inst.ports then cells bs (inst.buffers q) else inst.buffers q
      queued := inst.queued + 1
      holdState := true } := by
    simp only [step, h]
  exact ⟨_, hstep, rfl, rfl, rfl, rfl, rfl, rfl, hlock, rfl, rfl, rfl⟩

/-- A period tick that finds the buffer ready, as an event. -/
theorem step_tick_ready (inst : Simplejack σ) (nframes : Nat)
    (hlock : inst.period_mutex = false) (hr : inst.periodReady = true) :
    ∃ out, step (.tick nframes) inst = some out ∧ out.ticks = wrapInt (inst.ticks + 1) ∧
      out.misses = inst.misses ∧ out.periodReady = false ∧
      out.queued = inst.queued + 1 ∧ out.callback = inst.callback ∧
      out.period_mutex = false :=
  ⟨_, process_callback_ready inst nframes hlock hr, rfl, rfl, rfl, rfl, rfl, hlock⟩

/-- A period tick that finds the buffer not ready, as an event. -/
theorem step_tick_miss (inst : Simplejack σ) (nframes : Nat)
    (hlock : inst.period_mutex = false) (hr : inst.periodReady = false) :
    ∃ out, step (.tick nframes) inst = some out ∧ out.ticks = wrapInt (inst.ticks + 1) ∧
      out.misses = wrapInt (inst.misses + 1) ∧ out.periodReady = false ∧
      out.queued = inst.queued ∧ out.callback = inst.callback ∧
      out.period_mutex = false :=
  ⟨_, process_callback_miss inst nframes hlock hr, rfl, rfl, rfl, rfl, rfl, hlock⟩

/-- A queued fill as an event, when the callback in place never throws. -/
theorem step_fill (inst : Simplejack σ) (cb : UserCallback σ)
    (hlock : inst.period_mutex = false) (hcb : inst.callback = some cb)
    (hok : NeverThrows cb) (hq : inst.queued ≠ 0) :
    ∃ out, step .fill inst = some out ∧ out.periodReady = true ∧
      out.period_mutex = false ∧ out.callback = some cb ∧ out.ticks = inst.ticks ∧
      out.misses = inst.misses ∧ out.queued = inst.queued - 1 ∧
      out.bufferSize = inst.bufferSize ∧ out.sampleRate = inst.sampleRate ∧
      out.ports = inst.ports := by
  obtain ⟨out, h, h1, h2, h3, h4, h5, h6, h7, h8, h9⟩ :=
    work_callback_never_throws { inst with queued := inst.queued - 1 } cb hlock hcb hok
  exact ⟨out, by simp only [step, hq, if_false]; exact h, h1, h2, h3, h4, h5, h6, h7, h8, h9⟩

/-- The worker keeps up for `n` periods: no miss, and `ticks` has advanced by `n` in `int`
arithmetic. -/
theorem periods_run (cb : UserCallback σ) (hok : NeverThrows cb) (nframes : Nat) :
    ∀ (n : Nat) (inst : Simplejack σ) (k : Int), inst.period_mutex = false →
      inst.callback = some cb → inst.periodReady = true → inst.ticks = wrapInt k →
      ∃ out, run (periods nframes n) inst = some out ∧ out.misses = inst.misses ∧
        out.ticks = wrapInt (k + n) ∧ out.periodReady = true ∧ out.period_mutex = false := by
  intro n
  induction n with
  | zero =>
    intro inst k hlock _ hr ht
    exact ⟨inst, rfl, rfl, by simpa using ht, hr, hlock⟩
  | succ n ih =>
    intro inst k hlock hcb hr ht
    obtain ⟨s1, htick, ht0, hm0, -, hq0, hcb0, hlock0⟩ := step_tick_ready inst nframes hlock hr
    obtain ⟨mid, hfill, hr1, hlock1, hcb1, ht1, hm1, -⟩ :=
      step_fill s1 cb hlock0 (hcb0.trans hcb) hok (by omega)
    have ht2 : mid.ticks = wrapInt (k + 1) := by
      rw [ht1, ht0, ht, wrapInt_add_wrapInt]
    obtain ⟨out, hrun, hm, hticks, hr2, hlock2⟩ := ih mid (k + 1) hlock1 hcb1 hr1 ht2
    refine ⟨out, ?_, ?_, ?_, hr2, hlock2⟩
    · simp only [periods, run, htick, hfill]
      exact hrun
    · rw [hm, hm1, hm0]
    · rw [hticks]
      congr 1
      push_cast
      ring

/-- The trace `activate; fill; (tick; fill)^n` runs to its end without a miss, and leaves in
`ticks` the `int` value of `n`. -/
theorem handoff_trace_run (inst : Simplejack σ) (cb : UserCallback σ) (sr bs n : Nat)
    (hlock : inst.period_mutex = false) (hcb : inst.callback = some cb)
    (hok : NeverThrows cb) :
    ∃ out, run (handoff_trace sr bs n) inst = some out ∧ out.misses = 0 ∧
      out.ticks = wrapInt n := by
  obtain ⟨s1, h1, ht1, hm1, -, hq1, -, hcb1, hlock1, -⟩ := step_activate inst sr bs hlock
  obtain ⟨s2, h2, hr2, hlock2, hcb2, ht2, hm2, -⟩ :=
    step_fill s1 cb hlock1 (hcb1.trans hcb) hok (by omega)
  obtain ⟨out, h3, hm3, ht3, -⟩ :=
    periods_run cb hok bs n s2 0 hlock2 hcb2 hr2 (by rw [ht2, ht1]; rfl)
  refine ⟨out, ?_, ?_, ?_⟩
  · simp only [handoff_trace, run, h1, h2]
    exact h3
  · rw [hm3, hm2, hm1]
  · rw [ht3, zero_add]

/-- A period tick, ready or not, leaves the parameters alone and advances `ticks`. -/
theorem step_tick_params (inst : Simplejack σ) (nframes : Nat)
    (hlock : inst.period_mutex = false) :
    ∃ out, step (.tick nframes) inst = some out ∧ out.ticks = wrapInt (inst.ticks + 1) ∧
      out.bufferSize = inst.bufferSize ∧ out.sampleRate = inst.sampleRate ∧
      out.period_mutex = false := by
  cases hr : inst.periodReady with
  | true => exact ⟨_, process_callback_ready inst nframes hlock hr, rfl, rfl, rfl, hlock⟩
  | false => exact ⟨_, process_callback_miss inst nframes hlock hr, rfl, rfl, rfl, hlock⟩

/-- `n` period ticks in a row advance `ticks` by `n` as long as the sum fits an `int`. -/
theorem ticks_run (nframes : Nat) :
    ∀ (n : Nat) (inst : Simplejack σ), inst.period_mutex = false → 0 ≤ inst.ticks →
      inst.ticks + n < 2147483648 →
      ∃ out, run (List.replicate n (.tick nframes)) inst = some out ∧
        out.ticks = inst.ticks + n ∧ out.bufferSize = inst.bufferSize ∧
        out.sampleRate = inst.sampleRate ∧ out.period_mutex = false := by
  intro n
  induction n with
  | zero =>
    intro inst hlock _ _
    exact ⟨inst, rfl, by simp, rfl, rfl, hlock⟩
  | succ n ih =>
    intro inst hlock h0 hn
    obtain ⟨s1, h1, ht1, hb1, hs1, hlock1⟩ := step_tick_params inst nframes hlock
    have ht1' : s1.ticks = inst.ticks + 1 := by
      rw [ht1]
      exact wrapInt_of_int (by omega) (by push_cast at hn; omega)
    obtain ⟨out, h2, ht2, hb2, hs2, hlock2⟩ :=
      ih s1 hlock1 (by omega) (by push_cast at hn; omega)
    refine ⟨out, ?_, ?_, hb2.trans hb1, hs2.trans hs1, hlock2⟩
    · simp only [List.replicate_succ, run, h1]
      exact h2
    · rw [ht2, ht1']
      push_cast
      ring

/-- Every event that keeps the chain going takes a state with a live chain to one with a
live chain. -/
theorem step_keeps_chain (e : Event σ) (inst out : Simplejack σ) (he : KeepsChain e)
    (hinv : ChainAlive inst) (hstep : step e inst = some out) : ChainAlive out := by
  obtain ⟨hlock, ⟨cb, hcb, hok⟩, hq⟩ := hinv
  cases e with
  | activate sr bs status => exact absurd he (by simp [KeepsChain])
  | bufferSize n => exact absurd he (by simp [KeepsChain])
  | tick n =>
    cases hr : inst.periodReady with
    | true =>
      obtain ⟨o, h, -, -, -, hq1, hcb1, hl1⟩ := step_tick_ready inst n hlock hr
      rw [h] at hstep
      cases hstep
      exact ⟨hl1, ⟨cb, hcb1.trans hcb, hok⟩, fun _ => by omega⟩
    | false =>
      obtain ⟨o, h, -, -, -, hq1, hcb1, hl1⟩ := step_tick_miss inst n hlock hr
      rw [h] at hstep
      cases hstep
      exact ⟨hl1, ⟨cb, hcb1.trans hcb, hok⟩, fun _ => by have := hq hr; omega⟩
  | fill =>
    by_cases h0 : inst.queued = 0
    · simp [step, h0] at hstep
    · obtain ⟨o, h, hr1, hl1, hcb1, -⟩ := step_fill inst cb hlock hcb hok h0
      rw [h] at hstep
      cases hstep
      exact ⟨hl1, ⟨cb, hcb1, hok⟩, fun hf => by rw [hr1] at hf; cases hf⟩
  | sampleRate n =>
    have h : step (.sampleRate n) inst = some { inst with sampleRate := wrapInt n } :=
      sample_rate_changed_free inst n hlock
    rw [h] at hstep
    cases hstep
    exact ⟨hlock, ⟨cb, hcb, hok⟩, hq⟩
  | setCallback arg =>
    cases arg with
    | primitive =>
      have h : step (.setCallback .primitive) inst = some inst := rfl
      rw [h] at hstep
      cases hstep
      exact ⟨hlock, ⟨cb, hcb, hok⟩, hq⟩
    | object =>
      have h : step (.setCallback .object) inst = some inst := rfl
      rw [h] at hstep
      cases hstep
      exact ⟨hlock, ⟨cb, hcb, hok⟩, hq⟩
    | callable obj =>
      have h : step (.setCallback (.callable obj)) inst
          = some { inst with callback := some obj, ticks := 0 } := by
        simp only [step, Simplejack.Callback, hlock]
        rfl
      rw [h] at hstep
      cases hstep
      exact ⟨hlock, ⟨obj, rfl, he⟩, hq⟩

theorem run_keeps_chain (es : List (Event σ)) :
    ∀ (inst out : Simplejack σ), (∀ e ∈ es, KeepsChain e) → ChainAlive inst →
      run es inst = some out → ChainAlive out := by
  induction es with
  | nil =>
    intro inst out _ hinv hrun
    cases hrun
    exact hinv
  | cons e rest ih =>
    intro inst out hes hinv hrun
    simp only [run] at hrun
    rcases hs : step e inst with _ | mid
    · rw [hs] at hrun
      cases hrun
    · rw [hs] at hrun
      exact ih mid out (fun e1 h1 => hes e1 (List.mem_cons_of_mem _ h1))
        (step_keeps_chain e inst mid (hes e (List.mem_cons_self _ _)) hinv hs) hrun

/-! ## C1: the contract of `process_callback` -/

/-- C1, as stated, fails: with `ticks` at 2147483647 one run of `process_callback` leaves
`ticks` at -2147483648, not one above its value on entry. -/
theorem process_callback_ticks_wrap :
    ∃ out, (sample1 false 2147483647 0).process_callback 4 = some out ∧
      out.ticks = -2147483648 ∧ out.ticks ≠ (sample1 false 2147483647 0).ticks + 1 := by
  refine ⟨_, rfl, ?_, ?_⟩ <;> decide

/-- C1, amended: in every state where `period_mutex` is free and `ticks` is below the largest
`int` (and, when `periodReady` is false, so is `misses`), for every `nframes`, one run of
`process_callback` returns, increases `ticks` by exactly 1 and leaves `periodReady` false; if
`periodReady` was true it leaves in each port's output block `nframes` cells, the first
`nframes` samples of that port's buffer, schedules exactly one fill and keeps `misses`; if
`periodReady` was false it increases `misses` by exactly 1, schedules no fill and leaves every
output block and every period buffer untouched. -/
theorem process_callback_contract (inst : Simplejack σ) (nframes : Nat)
    (hlock : inst.period_mutex = false)
    (hticks : -2147483648 ≤ inst.ticks ∧ inst.ticks < 2147483647)
    (hmisses : inst.periodReady = false →
      -2147483648 ≤ inst.misses ∧ inst.misses < 2147483647) :
    ∃ out, inst.process_callback nframes = some out ∧
      out.ticks = inst.ticks + 1 ∧ out.periodReady = false ∧ out.period_mutex = false ∧
      (inst.periodReady = true →
        (∀ port, port < inst.ports →
          (out.port_buffers port).length = nframes ∧
          (∀ i, i < nframes → i < (inst.buffers port).length →
            (out.port_buffers port)[i]? = (inst.buffers port)[i]?) ∧
          (nframes ≤ (inst.buffers port).length →
            out.port_buffers port = (inst.buffers port).take nframes)) ∧
        out.queued = inst.queued + 1 ∧ out.misses = inst.misses ∧
        out.buffers = inst.buffers) ∧
      (inst.periodReady = false →
        out.misses = inst.misses + 1 ∧ out.queued = inst.queued ∧
        out.port_buffers = inst.port_buffers ∧ out.buffers = inst.buffers) := by
  have ht : wrapInt (inst.ticks + 1) = inst.ticks + 1 :=
    wrapInt_of_int (by omega) (by omega)
  cases hr : inst.periodReady with
  | true =>
    refine ⟨_, process_callback_ready inst nframes hlock hr, ht, rfl, hlock,
      fun _ => ⟨?_, rfl, rfl, rfl⟩, fun h => by cases h⟩
    intro port hport
    simp only [hport, if_true]
    exact ⟨cells_length _ _, fun i hi hb => cells_getElem? _ _ i hi hb,
      fun h => cells_eq_take _ _ h⟩
  | false =>
    have hm : wrapInt (inst.misses + 1) = inst.misses + 1 :=
      wrapInt_of_int (by have := hmisses hr; omega) (by have := hmisses hr; omega)
    exact ⟨_, process_callback_miss inst nframes hlock hr, ht, rfl, hlock,
      (fun h => by cases h), fun _ => ⟨hm, rfl, rfl, rfl⟩⟩

/-- C1, amended, at a ready one-port instance with buffer 1, 2, 3, 4 and `nframes = 4`. -/
theorem process_callback_contract_witness :
    ∃ out, (sample1 true 7 2).process_callback 4 = some out ∧
      out.ticks = 8 ∧ out.periodReady = false ∧ out.queued = 1 ∧ out.misses = 2 ∧
      out.port_buffers 0 = [some 1, some 2, some 3, some 4] := by
  obtain ⟨out, h, ht, hr, -, hready, -⟩ :=
    process_callback_contract (sample1 true 7 2) 4 rfl (by decide) (fun h => by cases h)
  obtain ⟨hports, hq, hm, -⟩ := hready rfl
  exact ⟨out, h, ht, hr, hq, hm, (hports 0 (by decide)).2.2 (by decide)⟩

/-! ## C7: a buffer-size change makes the next period a miss -/

/-- C7, as stated, fails: a new frame count of 2147483648 leaves `bufferSize` at
-2147483648, and with `misses` at 2147483647 the miss that follows a buffer-size change
leaves `misses` at -2147483648. -/
theorem buffer_size_changed_int_limits :
    (∃ mid, (sample1 true 0 0).buffer_size_changed 2147483648 = some mid ∧
      mid.bufferSize = -2147483648) ∧
    (∃ mid out, (sample1 true 0 2147483647).buffer_size_changed 4 = some mid ∧
      mid.process_callback 4 = some out ∧ out.misses = -2147483648 ∧
      out.misses ≠ (sample1 true 0 2147483647).misses + 1) := by
  refine ⟨⟨_, rfl, ?_⟩, ⟨_, _, rfl, rfl, ?_, ?_⟩⟩ <;> decide

/-- C7, amended: in every state where `period_mutex` is free and `misses` is below the
largest `int` (whether `periodReady` was true or false), and for every new frame count below
2147483648, `buffer_size_changed` sets `bufferSize` to the new count, gives every port a
buffer of that length and sets `periodReady` to false, so that a `process_callback` that runs
next records a miss: `misses` increases by 1, no fill is scheduled and nothing is copied to
the output ports. -/
theorem buffer_size_changed_then_miss (inst : Simplejack σ) (nframes next : Nat)
    (hlock : inst.period_mutex = false) (hn : nframes < 2147483648)
    (hmisses : -2147483648 ≤ inst.misses ∧ inst.misses < 2147483647) :
    ∃ mid out, inst.buffer_size_changed nframes = some mid ∧
      mid.bufferSize = nframes ∧
      (∀ port, port < inst.ports → (mid.buffers port).length = nframes) ∧
      mid.periodReady = false ∧
      mid.process_callback next = some out ∧
      out.misses = inst.misses + 1 ∧ out.queued = inst.queued ∧
      out.port_buffers = inst.port_buffers := by
  refine ⟨_, _, buffer_size_changed_free inst nframes hlock, ?_, ?_, rfl,
    process_callback_miss _ next hlock rfl, ?_, rfl, rfl⟩
  · exact wrapInt_of_int (by omega) (by omega)
  · intro port hport
    simp only [hport, if_true]
    exact cells_length _ _
  · show wrapInt (inst.misses + 1) = inst.misses + 1
    exact wrapInt_of_int (by omega) (by omega)

/-- C7, amended, at a ready one-port instance: after a change to 8 frames the next period is
a miss. -/
theorem buffer_size_changed_then_miss_witness :
    ∃ mid out, (sample1 true 7 2).buffer_size_changed 8 = some mid ∧
      mid.bufferSize = 8 ∧ (mid.buffers 0).length = 8 ∧ mid.periodReady = false ∧
      mid.process_callback 8 = some out ∧ out.misses = 3 ∧ out.queued = 0 := by
  obtain ⟨mid, out, h1, hb, hlen, hr, h2, hm, hq, -⟩ :=
    buffer_size_changed_then_miss (sample1 true 7 2) 8 8 rfl (by decide) (by decide)
  exact ⟨mid, out, h1, hb, hlen 0 (by decide), hr, h2, hm, hq⟩

/-! ## C8: the `callback` setter -/

/-- The `callback` setter when it can take the lock: a callable argument replaces the active
callback and sets `ticks` to 0, while `misses`, `periodReady`, `sampleRate`, `bufferSize` and
the period buffers keep their values; an argument that is not callable is rejected with an
error, in every state, and the state is unchanged. -/
theorem Callback_with_free_mutex (inst : Simplejack σ) (arg : JsValue σ) :
    (∀ obj, arg = .callable obj → inst.period_mutex = false →
      ∃ out, inst.Callback arg = some (out, .ok ()) ∧
        out.callback = some obj ∧ out.ticks = 0 ∧
        out.misses = inst.misses ∧ out.periodReady = inst.periodReady ∧
        out.sampleRate = inst.sampleRate ∧ out.bufferSize = inst.bufferSize ∧
        out.buffers = inst.buffers ∧ out.holdState = inst.holdState ∧
        out.queued = inst.queued ∧ out.port_buffers = inst.port_buffers) ∧
    ((∀ obj, arg ≠ .callable obj) →
      ∃ e, inst.Callback arg = some (inst, .error e)) := by
  constructor
  · intro obj harg hlock
    subst harg
    have h : inst.Callback (.callable obj)
        = some ({ inst with callback := some obj, ticks := 0 }, .ok ()) := by
      simp only [Simplejack.Callback, hlock]
      rfl
    exact ⟨_, h, rfl, rfl, rfl, rfl, rfl, rfl, rfl, rfl, rfl, rfl⟩
  · intro hnot
    cases arg with
    | primitive => exact ⟨_, rfl⟩
    | object => exact ⟨_, rfl⟩
    | callable obj => exact absurd rfl (hnot obj)

/-- C5, on the code: when the audio server refuses the activation request (`jack_activate`
returns a non-zero status) and `period_mutex` is free, `Activate` does not return an error to
its caller: `JackError::check`, declared `throw ()`, throws, and the process is terminated.
By then `ticks` and `misses` are 0, `periodReady` is false, `sampleRate` and `bufferSize` hold
the values the server reports and every port's buffer has been reallocated to the reported
size; only `holdState` and the scheduled fills are as before the call. -/
theorem Activate_refused (inst : Simplejack σ) (sr bs : Nat) (status : Int)
    (hlock : inst.period_mutex = false) (hstatus : status ≠ 0) :
    ∃ last, inst.Activate sr bs status
        = .terminated last ⟨status, "activating the client"⟩ ∧
      last.holdState = inst.holdState ∧ last.queued = inst.queued ∧
      last.callback = inst.callback ∧ last.port_buffers = inst.port_buffers ∧
      last.ticks = 0 ∧ last.misses = 0 ∧ last.periodReady = false ∧
      last.sampleRate = wrapInt sr ∧ last.bufferSize = wrapInt bs ∧
      ∀ port, port < inst.ports → last.buffers port = cells bs (inst.buffers port) := by
  have h := Activate_free inst sr bs status hlock
  rw [if_pos hstatus] at h
  refine ⟨_, h, rfl, rfl, rfl, rfl, rfl, rfl, rfl, rfl, rfl, ?_⟩
  intro port hport
  simp only [hport, if_true]

/-- C5 at an instance with `ticks = 7`, `misses = 2`, `periodReady` true, sample rate 48000
and 4-frame buffers 1, 2, 3, 4, when the server reports 44100 Hz and 2 frames and refuses
with status 1: the process is terminated with `ticks = 0`, `misses = 0`, `periodReady`
false, sample rate 44100 and 2-frame buffers. -/
theorem Activate_refused_witness :
    ∃ last, (sample1 true 7 2).Activate 44100 2 1
        = .terminated last ⟨1, "activating the client"⟩ ∧
      last.holdState = false ∧ last.queued = 0 ∧ last.ticks = 0 ∧ last.misses = 0 ∧
      last.periodReady = false ∧ last.sampleRate = 44100 ∧ last.bufferSize = 2 ∧
      last.buffers 0 = [some 1, some 2] ∧
      (sample1 true 7 2).ticks = 7 ∧ (sample1 true 7 2).misses = 2 ∧
      (sample1 true 7 2).periodReady = true ∧ (sample1 true 7 2).sampleRate = 48000 ∧
      (sample1 true 7 2).bufferSize = 4 := by
  obtain ⟨last, h, hh, hq, -, -, ht, hm, hr, hs, hb, hbuf⟩ :=
    Activate_refused (sample1 true 7 2) 44100 2 1 rfl (by decide)
  refine ⟨last, h, hh, hq, ht, hm, hr, ?_, ?_, ?_, ?_, ?_, ?_, ?_, ?_⟩
  · rw [hs]; decide
  · rw [hb]; decide
  · rw [hbuf 0 (by decide)]; decide
  · decide
  · decide
  · decide
  · decide
  · decide

/-! ## C6: a fill whose callback throws -/

/-- C6, on the code: whenever the user callback throws at some position `(port0, i0)` of a
fill, `work_callback` returns without setting `periodReady`, records the exception once and
leaves `period_mutex` locked, so that every later `process_callback` stays blocked on the
mutex: it does not return, records no miss and no tick. -/
theorem failed_fill_keeps_mutex (inst : Simplejack σ) (cb : UserCallback σ)
    (port0 i0 : Nat) (e : String)
    (hlock : inst.period_mutex = false) (hcb : inst.callback = some cb)
    (hport : port0 < inst.ports) (hi : (i0 : Int) < inst.bufferSize)
    (hthrow : cb ⟨wrapInt (Simplejack.work_offset inst + i0), inst.sampleRate⟩ port0 i0
      = .error e) :
    ∃ out, inst.work_callback = some out ∧ out.periodReady = inst.periodReady ∧
      out.misses = inst.misses ∧ out.ticks = inst.ticks ∧
      (∃ e1, out.thrown = inst.thrown ++ [e1]) ∧ out.period_mutex = true ∧
      ∀ nframes, out.process_callback nframes = none := by
  have h2 := fill_loops_throws cb (Simplejack.work_offset inst) inst.sampleRate inst.ports
    inst.bufferSize port0 i0 e hport hi hthrow (inst.buffers, inst.calls)
  rcases hl : Simplejack.fill_loops cb (Simplejack.work_offset inst) inst.sampleRate inst.ports
    inst.bufferSize (inst.buffers, inst.calls) with ⟨st, _ | e1⟩
  · rw [hl] at h2
    exact absurd rfl h2
  · exact ⟨_, work_callback_of_throw inst cb st e1 hlock hcb hl, rfl, rfl, rfl, ⟨e1, rfl⟩, rfl,
      fun nframes => process_callback_locked _ nframes rfl⟩

/-- C6 at one port with 4-frame buffers and a callback that throws on frame 2 of port 0. -/
theorem failed_fill_keeps_mutex_witness :
    ∃ out, throwing.work_callback = some out ∧ out.periodReady = false ∧
      out.misses = 1 ∧ out.ticks = 1 ∧ out.thrown = ["boom"] ∧ out.period_mutex = true ∧
      out.process_callback 4 = none := by
  obtain ⟨out, h, hr, hm, ht, ⟨e1, he⟩, hl, hp⟩ :=
    failed_fill_keeps_mutex throwing throwsAtFrame2 0 2 "boom" rfl rfl (by decide)
      (by decide) rfl
  have hout : out.thrown = ["boom"] := by
    have h0 : throwing.work_callback = some out := h
    have : (throwing.work_callback).map (fun s => s.thrown) = some ["boom"] := by decide
    rw [h0] at this
    simpa using this
  exact ⟨out, h, hr, hm, ht, hout, hl, hp 4⟩

/-! ## C2: no miss while the worker keeps up -/

/-- C2, as stated, fails: after 2147483648 periods of the trace `activate; fill;
(tick; fill)^n` the counter `ticks` holds -2147483648, not the number of periods. -/
theorem handoff_ticks_wrap :
    ∃ out, run (handoff_trace 48000 4 2147483648) (fresh 1) = some out ∧
      out.ticks = -2147483648 ∧ out.ticks ≠ ((2147483648 : Nat) : Int) := by
  obtain ⟨out, h, -, ht⟩ := handoff_trace_run (fresh 1) (portFrame id) 48000 4 2147483648
    rfl rfl (fun _ _ _ => ⟨_, rfl⟩)
  have hw : wrapInt ((2147483648 : Nat) : Int) = -2147483648 := by decide
  rw [hw] at ht
  exact ⟨out, h, ht, by rw [ht]; decide⟩

/-- C2, amended: for every `n` below 2147483648, starting from `activate` with `period_mutex`
free and a user callback set that never throws, and with no buffer-size change, the sequence
`activate; fill; (tick; fill)^n` runs to its end and leaves `misses = 0` and `ticks = n`. -/
theorem handoff_no_miss (inst : Simplejack σ) (cb : UserCallback σ) (sr bs n : Nat)
    (hlock : inst.period_mutex = false) (hcb : inst.callback = some cb)
    (hok : NeverThrows cb) (hn : n < 2147483648) :
    ∃ out, run (handoff_trace sr bs n) inst = some out ∧ out.misses = 0 ∧
      out.ticks = n := by
  obtain ⟨out, h, hm, ht⟩ := handoff_trace_run inst cb sr bs n hlock hcb hok
  exact ⟨out, h, hm, by rw [ht]; exact wrapInt_of_int (by omega) (by omega)⟩

/-- C2, amended, at a fresh two-port instance and three periods. -/
theorem handoff_no_miss_witness :
    ∃ out, run (handoff_trace 48000 4 3) (fresh 2) = some out ∧ out.misses = 0 ∧
      out.ticks = 3 :=
  handoff_no_miss (fresh 2) (portFrame id) 48000 4 3 rfl rfl (fun _ _ _ => ⟨_, rfl⟩)
    (by decide)

/-! ## C9: is a fill pending at every miss? -/

/-- C9, as stated, fails. After `activate` on an instance with no callback, the first fill
returns at once: `periodReady` is false, no fill is queued and one fill has run. After
`activate`, a completed fill and a buffer-size change the same holds. In both states the
next `process_callback` records a miss with no fill outstanding. -/
theorem fill_chain_breaks :
    (∃ out, run [.activate 48000 4 0, .fill] (construct 1 0 0 false : Simplejack Nat)
        = some out ∧
      out.periodReady = false ∧ out.queued = 0 ∧ out.fills = 1 ∧
      ∃ next, out.process_callback 4 = some next ∧ next.misses = 1 ∧ next.queued = 0) ∧
    (∃ out, run [.activate 48000 4 0, .fill, .bufferSize 8] (fresh 1) = some out ∧
      out.periodReady = false ∧ out.queued = 0 ∧ out.fills = 1 ∧
      ∃ next, out.process_callback 8 = some next ∧ next.misses = 1 ∧ next.queued = 0) := by
  refine ⟨⟨_, rfl, ?_, ?_, ?_, _, rfl, ?_, ?_⟩, ⟨_, rfl, ?_, ?_, ?_, _, rfl, ?_, ?_⟩⟩ <;> decide

/-- C9, amended: in every state reachable after a successful `activate` of an instance whose
mutex is free and whose callback never throws, through any interleaving of period ticks,
fill-worker runs, sample-rate changes and callback replacements by callbacks that never
throw, a buffer that is not ready has a scheduled fill outstanding. -/
theorem fill_pending_when_not_ready (inst : Simplejack σ) (cb : UserCallback σ)
    (sr bs : Nat) (es : List (Event σ)) (out : Simplejack σ)
    (hlock : inst.period_mutex = false) (hcb : inst.callback = some cb)
    (hok : NeverThrows cb) (hes : ∀ e ∈ es, KeepsChain e)
    (hrun : run (.activate sr bs 0 :: es) inst = some out)
    (hmiss : out.periodReady = false) : 1 ≤ out.queued := by
  obtain ⟨s1, h1, -, -, -, hq1, -, hcb1, hlock1, -⟩ := step_activate inst sr bs hlock
  simp only [run, h1] at hrun
  have hinv : ChainAlive s1 := ⟨hlock1, ⟨cb, hcb1.trans hcb, hok⟩, fun _ => by omega⟩
  exact (run_keeps_chain es s1 out hes hinv hrun).2.2 hmiss

/-- C9, amended, on a trace with two misses in a row after a consumed buffer. -/
theorem fill_pending_when_not_ready_witness :
    ∃ out, run [.activate 48000 4 0, .tick 4, .fill, .tick 4, .sampleRate 44100, .tick 4]
        (fresh 1) = some out ∧
      out.periodReady = false ∧ out.misses = 2 ∧ 1 ≤ out.queued :=
  ⟨_, rfl, rfl, rfl,
    fill_pending_when_not_ready (fresh 1) (portFrame id) 48000 4
      [.tick 4, .fill, .tick 4, .sampleRate 44100, .tick 4] _ rfl rfl
      (fun _ _ _ => ⟨_, rfl⟩) (by simp [KeepsChain]) rfl rfl⟩

/-! ## C10: the frame offset of a fill -/

/-- C10, on the code: 2097152 period ticks after `activate` with 1024-frame buffers at
48000 Hz, `ticks` is 2097152 and the offset `bufferSize * ticks` computed by `work_callback`
is -2147483648 instead of 2147483648: it is negative, below the offset 2147482624 of the
period before, and the time handed to the callback for frame 0 is -2147483648 / 48000. -/
theorem work_offset_wraps :
    ∃ prev cur, run (.activate 48000 1024 0 :: List.replicate 2097151 (.tick 1024)) (fresh 1)
        = some prev ∧
      step (.tick 1024) prev = some cur ∧
      prev.ticks = 2097151 ∧ Simplejack.work_offset prev = 2147482624 ∧
      cur.ticks = 2097152 ∧ cur.bufferSize = 1024 ∧ cur.sampleRate = 48000 ∧
      Simplejack.work_offset cur = -2147483648 ∧
      Simplejack.work_offset cur ≠ cur.bufferSize * cur.ticks ∧
      (Simplejack.fill_frame (portFrame id) (Simplejack.work_offset cur) cur.sampleRate 0 0
        (cur.buffers, [])).1.2 = [(⟨-2147483648, 48000⟩, 0, 0)] := by
  obtain ⟨s1, h1, ht1, -, -, -, -, -, hlock1, hb1, hs1, -⟩ :=
    step_activate (fresh 1) 48000 1024 rfl
  obtain ⟨prev, h2, ht2, hb2, hs2, hlock2⟩ :=
    ticks_run 1024 2097151 s1 hlock1 (by omega) (by rw [ht1]; decide)
  obtain ⟨cur, h3, ht3, hb3, hs3, -⟩ := step_tick_params prev 1024 hlock2
  have hbs : cur.bufferSize = 1024 := by
    rw [hb3, hb2, hb1]
    decide
  have hsr : cur.sampleRate = 48000 := by
    rw [hs3, hs2, hs1]
    decide
  have htp : prev.ticks = 2097151 := by
    rw [ht2, ht1]
    decide
  have htc : cur.ticks = 2097152 := by
    rw [ht3, htp]
    decide
  have hoff : Simplejack.work_offset cur = -2147483648 := by
    simp only [Simplejack.work_offset, hbs, htc]
    decide
  refine ⟨prev, cur, ?_, h3, htp, ?_, htc, hbs, hsr, hoff, ?_, ?_⟩
  · rw [run_cons_of_step _ _ _ _ h1]
    exact h2
  · simp only [Simplejack.work_offset, hb2, hb1, htp]
    decide
  · rw [hoff, hbs, htc]
    decide
  · simp only [Simplejack.fill_frame, hoff, hsr, portFrame]
    decide

/-! ## C3: round trip through the handoff -/

/-- C4, as stated, fails: in the scenario the fill that follows the first period calls the
callback at the times 4/48000 to 7/48000 for each port, not 0/48000 to 3/48000. -/
theorem scenario_times_start_at_offset :
    ∃ out, run [.activate 48000 4 0, .tick 4, .fill] (fresh 2) = some out ∧
      out.calls.map (fun c => (c.1.num, c.1.den, c.2.1))
        = [(4, 48000, 0), (5, 48000, 0), (6, 48000, 0), (7, 48000, 0),
           (4, 48000, 1), (5, 48000, 1), (6, 48000, 1), (7, 48000, 1)] ∧
      out.calls.map (fun c => (c.1.num, c.1.den, c.2.1))
        ≠ [(0, 48000, 0), (1, 48000, 0), (2, 48000, 0), (3, 48000, 0),
           (0, 48000, 1), (1, 48000, 1), (2, 48000, 1), (3, 48000, 1)] := by
  refine ⟨_, rfl, ?_, ?_⟩ <;> decide

/-- C4, amended: with port count 2, buffer size 4 and sample rate 48000, after `activate` a
first `process_callback` that runs before any fill completes leaves `misses = 1` and
`ticks = 1`; the fill worker that runs next invokes the user callback exactly 8 times, with
times 4/48000, 5/48000, 6/48000, 7/48000 (frame indices 0 to 3) for port 0 and the same four
times for port 1; the second `process_callback` then consumes the ready buffer, copies it to
both ports, leaves `misses = 1`, sets `ticks = 2` and schedules one new fill. -/
theorem scenario_two_ports (g : JsTime → Nat → Nat → σ) (sampleRate0 bufferSize0 : Int)
    (periodReady0 : Bool) :
    ∃ s1 s2 s3 s4,
      (scenario g sampleRate0 bufferSize0 periodReady0).Activate 48000 4 0
        = .returned s1 ∧
      s1.process_callback 4 = some s2 ∧ s2.misses = 1 ∧ s2.ticks = 1 ∧ s2.queued = 1 ∧
      step .fill s2 = some s3 ∧ s3.periodReady = true ∧ s3.queued = 0 ∧
      s3.calls =
        [(⟨4, 48000⟩, 0, 0), (⟨5, 48000⟩, 0, 1), (⟨6, 48000⟩, 0, 2), (⟨7, 48000⟩, 0, 3),
         (⟨4, 48000⟩, 1, 0), (⟨5, 48000⟩, 1, 1), (⟨6, 48000⟩, 1, 2), (⟨7, 48000⟩, 1, 3)] ∧
      s3.process_callback 4 = some s4 ∧
      s4.port_buffers 0 = [some (g ⟨4, 48000⟩ 0 0), some (g ⟨5, 48000⟩ 0 1),
        some (g ⟨6, 48000⟩ 0 2), some (g ⟨7, 48000⟩ 0 3)] ∧
      s4.port_buffers 1 = [some (g ⟨4, 48000⟩ 1 0), some (g ⟨5, 48000⟩ 1 1),
        some (g ⟨6, 48000⟩ 1 2), some (g ⟨7, 48000⟩ 1 3)] ∧
      s4.misses = 1 ∧ s4.ticks = 2 ∧ s4.queued = 1 ∧ s4.periodReady = false := by
  cases periodReady0 <;>
    exact ⟨_, _, _, _, rfl, rfl, rfl, rfl, rfl, rfl, rfl, rfl, rfl, rfl, rfl, rfl, rfl, rfl,
      rfl, rfl⟩

end SimplejackBinding
